import Mathlib

/-
Verification of the structured-text configuration patcher
(`updateConfigFile` in `infrastructure/zk/src/init.ts`).

The embedding works over `List Char`: a file's content is a `List Char`,
a line is a line-break-free `List Char`.  JavaScript strings are modelled
as `List Char`; the whitespace class used by `String.prototype.trim`,
`String.prototype.match`'s `\s`, and the regexes is restricted to the
ASCII part (space, tab, CR, LF, vertical tab, form feed), which covers
every character the configuration dialect uses.  The `string | number`
values of a `ConfigLine` are modelled by their stringified form, since
the source only ever uses a value through `${configLine.value}`.
-/

set_option autoImplicit false

namespace ZkInit

/-- A single line of the file, without its line break. -/
abbrev Line := List Char

/-- A position index: association list from name to line index, first
match wins on lookup, in-place overwrite on update — the behavior of a
JavaScript `Record<string, number>`. -/
abbrev Idx := List (Line × Nat)

/-- Shorthand to build `List Char` inputs from string literals. -/
def s2l (s : String) : List Char := s.toList

/-- The whitespace class of JavaScript `trim` / regex `\s` (ASCII part). -/
def isWs (c : Char) : Bool :=
  c == ' ' || c == '\t' || c == '\n' || c == '\r' || c == '\u000B' || c == '\u000C'

/-- JavaScript `String.prototype.trim` on a line. -/
def trim (l : List Char) : List Char :=
  ((l.dropWhile isWs).reverse.dropWhile isWs).reverse

/-- Leftmost match of `/^\s*\[([^\]]+)\]\s*$/` against a line, returning
the trimmed captured group (the source stores `sectionMatch[1].trim()`).
`\s*` must consume the maximal whitespace run (the next token is a literal
`[`), the capture `[^\]]+` is the nonempty run up to the first `]`, and
after the `]` only whitespace may remain. -/
def matchSection (l : Line) : Option Line :=
  match l.dropWhile isWs with
  | '[' :: rest =>
    match rest.dropWhile (fun c => c != ']') with
    | ']' :: tail =>
      let name := rest.takeWhile (fun c => c != ']')
      if name.isEmpty then none
      else if tail.all isWs then some (trim name) else none
    | _ => none
  | _ => none

/-- Leftmost match of `/([^=]+)=(.*)/` against a line, returning the
trimmed first capture (the source stores `match[1].trim()`).  The
leftmost match starts at the first non-`=` character; the greedy `[^=]+`
then runs to the first following `=`; the match exists iff an `=` occurs
after some non-`=` character, i.e. iff dropping the leading `=` signs
leaves a string still containing `=`. -/
def matchKey (l : Line) : Option Line :=
  let t := l.dropWhile (fun c => c == '=')
  if t.any (fun c => c == '=') then some (trim (t.takeWhile (fun c => c != '='))) else none

/-- First-match lookup in an index (`record[name]`, `undefined` ↦ `none`). -/
def lookupIdx (m : Idx) (k : Line) : Option Nat :=
  (m.find? (fun p => p.1 == k)).map (fun p => p.2)

/-- `record[name] = v`: overwrite in place when the name exists, append
otherwise (insertion order of a JavaScript object). -/
def setIdx (m : Idx) (k : Line) (v : Nat) : Idx :=
  if m.any (fun p => p.1 == k) then
    m.map (fun p => if p.1 == k then (p.1, v) else p)
  else m ++ [(k, v)]

/-- Decrement every recorded position strictly greater than `d`
(the `index > lineIndex ⟹ index - 1` fixup after a delete). -/
def decAbove (m : Idx) (d : Nat) : Idx :=
  m.map (fun p => if d < p.2 then (p.1, p.2 - 1) else p)

/-- Increment every recorded position strictly greater than `d`
(the `index > sectionIndex ⟹ index + 1` fixup after an insert). -/
def incAbove (m : Idx) (d : Nat) : Idx :=
  m.map (fun p => if d < p.2 then (p.1, p.2 + 1) else p)

/-- JavaScript `Array.prototype.splice(start, deleteCount, ...items)` for
the in-range uses of the source: `start` is clamped to the array length,
`deleteCount` many elements from there are removed and `items` spliced in. -/
def splice {α : Type} (l : List α) (start delCount : Nat) (items : List α) : List α :=
  let s := min start l.length
  l.take s ++ items ++ l.drop (s + delCount)

/-- One requested mutation (`ConfigLine` in the source): `value = none`
models `null` ("delete"), `sectionName = none` models `section: null`. -/
structure ConfigLine where
  key : Line
  value : Option Line
  sectionName : Option Line
  deriving DecidableEq

/-- The in-memory state of one patch batch: the mutable line buffer, the
two position indexes, and the `addedContent` append slot (a single
`string | undefined` variable in the source). -/
structure PatchState where
  lines : List Line
  lineIndices : Idx
  sectionIndices : Idx
  addedContent : Option (List Char)
  deriving DecidableEq

/-- The initial scan (`for (let i = 0; ...)`): lines whose FIRST character
is `#` are skipped (`line.startsWith('#')`); every other line is tested
against the section regex and then, independently (no `else` in the
source), against the key regex; each hit overwrites the index entry. -/
def buildIndicesAux : List Line → Nat → Idx → Idx → Idx × Idx
  | [], _, li, si => (li, si)
  | l :: rest, i, li, si =>
    if l.head? = some '#' then buildIndicesAux rest (i + 1) li si
    else
      let si1 := match matchSection l with
        | some name => setIdx si name i
        | none => si
      let li1 := match matchKey l with
        | some k => setIdx li k i
        | none => li
      buildIndicesAux rest (i + 1) li1 si1

/-- Build `lineIndices` and `sectionIndices` from the split lines. -/
def buildIndices (lines : List Line) : Idx × Idx :=
  buildIndicesAux lines 0 [] []

/-- Apply one `ConfigLine` to the state — the body of the
`updatedConfigLines.forEach` callback.  Note two faithful quirks:
`sectionIndices[configLine.section!]` coerces a `null` section to the
property name `"null"`, and a delete never removes the key's own entry
from `lineIndices`. -/
def applyEdit (st : PatchState) (c : ConfigLine) : PatchState :=
  let lineIndex? := lookupIdx st.lineIndices c.key
  let sectionIndex? := lookupIdx st.sectionIndices (c.sectionName.getD (s2l "null"))
  match lineIndex?, c.value with
  | some li, some v =>
    { st with lines := splice st.lines li 1 [c.key ++ '=' :: v] }
  | some li, none =>
    { st with
        lines := splice st.lines li 1 [],
        lineIndices := decAbove st.lineIndices li,
        sectionIndices := decAbove st.sectionIndices li }
  | none, some v =>
    match sectionIndex? with
    | some si =>
      { st with
          lines := splice st.lines (si + 1) 0 [c.key ++ '=' :: v],
          lineIndices := incAbove st.lineIndices si,
          sectionIndices := incAbove st.sectionIndices si }
    | none =>
      { st with addedContent := some (c.key ++ '=' :: (v ++ ['\n'])) }
  | none, none => st

/-- `content.split('\n')` on a `List Char` (JavaScript yields `[""]` on
the empty string). -/
def splitNL : List Char → List Line
  | [] => [[]]
  | c :: rest =>
    if c = '\n' then [] :: splitNL rest
    else
      match splitNL rest with
      | [] => [[c]]
      | l :: ls => (c :: l) :: ls

/-- `lines.join('\n')` on `List Char` lines. -/
def joinNL : List Line → List Char
  | [] => []
  | [l] => l
  | l :: ls => l ++ '\n' :: joinNL ls

/-- Load a file's content into the initial patch state. -/
def initState (content : List Char) : PatchState :=
  let lines := splitNL content
  let idx := buildIndices lines
  ⟨lines, idx.1, idx.2, none⟩

/-- Run a whole edit batch over the initial state. -/
def runEdits (content : List Char) (edits : List ConfigLine) : PatchState :=
  edits.foldl applyEdit (initState content)

/-- The full patcher on content: split, scan, apply every edit in order,
join, and append `addedContent` when set (it is never the empty string,
so JavaScript truthiness agrees with `Option`). -/
def updateConfigContent (content : List Char) (edits : List ConfigLine) : List Char :=
  let st := runEdits content edits
  joinNL st.lines ++ st.addedContent.getD []

/-! ### Helper lemmas -/

theorem splitNL_ne_nil (s : List Char) : splitNL s ≠ [] := by
  induction s with
  | nil => simp [splitNL]
  | cons c rest ih =>
    simp only [splitNL]
    split
    · simp
    · cases h : splitNL rest with
      | nil => simp
      | cons l ls => simp

theorem joinNL_splitNL (s : List Char) : joinNL (splitNL s) = s := by
  induction s with
  | nil => rfl
  | cons c rest ih =>
    simp only [splitNL]
    by_cases hc : c = '\n'
    · subst hc
      rw [if_pos rfl]
      cases h : splitNL rest with
      | nil => exact absurd h (splitNL_ne_nil rest)
      | cons l ls =>
        rw [h] at ih
        show joinNL ([] :: l :: ls) = '\n' :: rest
        rw [show joinNL ([] :: l :: ls) = [] ++ '\n' :: joinNL (l :: ls) from rfl]
        rw [ih]
        rfl
    · rw [if_neg hc]
      cases h : splitNL rest with
      | nil => exact absurd h (splitNL_ne_nil rest)
      | cons l ls =>
        rw [h] at ih
        cases ls with
        | nil =>
          show joinNL [c :: l] = c :: rest
          rw [show joinNL [c :: l] = c :: l from rfl]
          rw [show joinNL [l] = l from rfl] at ih
          rw [ih]
        | cons l2 ls2 =>
          show joinNL ((c :: l) :: l2 :: ls2) = c :: rest
          rw [show joinNL ((c :: l) :: l2 :: ls2) = (c :: l) ++ '\n' :: joinNL (l2 :: ls2)
            from rfl]
          rw [show joinNL (l :: l2 :: ls2) = l ++ '\n' :: joinNL (l2 :: ls2) from rfl] at ih
          rw [List.cons_append, ih]

theorem mem_setIdx {m : Idx} {k : Line} {v : Nat} {q : Line × Nat} (hq : q ∈ setIdx m k v) :
    q.2 = v ∨ q ∈ m := by
  unfold setIdx at hq
  split at hq
  · obtain ⟨p, hp, hpq⟩ := List.mem_map.mp hq
    by_cases h : p.1 == k
    · rw [if_pos h] at hpq
      exact Or.inl (hpq ▸ rfl)
    · rw [if_neg h] at hpq
      exact Or.inr (hpq ▸ hp)
  · rcases List.mem_append.mp hq with h | h
    · exact Or.inr h
    · simp at h
      exact Or.inl (h ▸ rfl)

theorem setIdx_bound {m : Idx} {k : Line} {v n : Nat}
    (hm : ∀ p ∈ m, p.2 < n) (hv : v < n) : ∀ p ∈ setIdx m k v, p.2 < n := by
  intro p hp
  rcases mem_setIdx hp with h | h
  · exact h ▸ hv
  · exact hm p h

theorem buildIndicesAux_bound (ls : List Line) (i : Nat) (li si : Idx)
    (hli : ∀ p ∈ li, p.2 < i) (hsi : ∀ p ∈ si, p.2 < i) :
    (∀ p ∈ (buildIndicesAux ls i li si).1, p.2 < i + ls.length) ∧
    (∀ p ∈ (buildIndicesAux ls i li si).2, p.2 < i + ls.length) := by
  induction ls generalizing i li si with
  | nil =>
    simp only [buildIndicesAux, List.length_nil, Nat.add_zero]
    exact ⟨hli, hsi⟩
  | cons l rest ih =>
    have hstep : ∀ (li1 si1 : Idx), (∀ p ∈ li1, p.2 < i + 1) → (∀ p ∈ si1, p.2 < i + 1) →
        (∀ p ∈ (buildIndicesAux rest (i + 1) li1 si1).1, p.2 < i + (l :: rest).length) ∧
        (∀ p ∈ (buildIndicesAux rest (i + 1) li1 si1).2, p.2 < i + (l :: rest).length) := by
      intro li1 si1 h1 h2
      have := ih (i + 1) li1 si1 h1 h2
      simpa [Nat.add_comm, Nat.add_assoc, Nat.add_left_comm] using this
    have hli1 : ∀ p ∈ li, p.2 < i + 1 := fun p hp => Nat.lt_succ_of_lt (hli p hp)
    have hsi1 : ∀ p ∈ si, p.2 < i + 1 := fun p hp => Nat.lt_succ_of_lt (hsi p hp)
    simp only [buildIndicesAux]
    split
    · exact hstep li si hli1 hsi1
    · cases hms : matchSection l with
      | none =>
        cases hmk : matchKey l with
        | none => simpa [hms, hmk] using hstep li si hli1 hsi1
        | some k =>
          simpa [hms, hmk] using
            hstep (setIdx li k i) si (setIdx_bound hli1 (Nat.lt_succ_self i)) hsi1
      | some name =>
        cases hmk : matchKey l with
        | none =>
          simpa [hms, hmk] using
            hstep li (setIdx si name i) hli1 (setIdx_bound hsi1 (Nat.lt_succ_self i))
        | some k =>
          simpa [hms, hmk] using
            hstep (setIdx li k i) (setIdx si name i)
              (setIdx_bound hli1 (Nat.lt_succ_self i))
              (setIdx_bound hsi1 (Nat.lt_succ_self i))

theorem lookupIdx_some_mem {m : Idx} {k : Line} {v : Nat} (h : lookupIdx m k = some v) :
    ∃ p ∈ m, p.2 = v := by
  unfold lookupIdx at h
  cases hf : m.find? (fun p => p.1 == k) with
  | none => rw [hf] at h; simp at h
  | some p =>
    rw [hf] at h
    exact ⟨p, List.mem_of_find?_eq_some hf, by simpa using h⟩

theorem keyIdx_lt {lines : List Line} {k : Line} {v : Nat}
    (h : lookupIdx (buildIndices lines).1 k = some v) : v < lines.length := by
  obtain ⟨p, hp, hpv⟩ := lookupIdx_some_mem h
  have := (buildIndicesAux_bound lines 0 [] [] (by simp) (by simp)).1 p hp
  simpa [buildIndices, hpv] using this

theorem sectionIdx_lt {lines : List Line} {k : Line} {v : Nat}
    (h : lookupIdx (buildIndices lines).2 k = some v) : v < lines.length := by
  obtain ⟨p, hp, hpv⟩ := lookupIdx_some_mem h
  have := (buildIndicesAux_bound lines 0 [] [] (by simp) (by simp)).2 p hp
  simpa [buildIndices, hpv] using this

theorem lookupIdx_cons_pos {p : Line × Nat} {rest : Idx} {k : Line}
    (h : (p.1 == k) = true) : lookupIdx (p :: rest) k = some p.2 := by
  simp [lookupIdx, List.find?_cons, h]

theorem lookupIdx_cons_neg {p : Line × Nat} {rest : Idx} {k : Line}
    (h : (p.1 == k) = false) : lookupIdx (p :: rest) k = lookupIdx rest k := by
  simp [lookupIdx, List.find?_cons, h]

theorem lookupIdx_decAbove (m : Idx) (d : Nat) (k : Line) :
    lookupIdx (decAbove m d) k =
      (lookupIdx m k).map (fun i => if d < i then i - 1 else i) := by
  induction m with
  | nil => rfl
  | cons p rest ih =>
    have hq : decAbove (p :: rest) d =
        (if d < p.2 then (p.1, p.2 - 1) else p) :: decAbove rest d := rfl
    by_cases hk : (p.1 == k) = true
    · have h1 : ((if d < p.2 then (p.1, p.2 - 1) else p).1 == k) = true := by
        by_cases hd : d < p.2
        · rw [if_pos hd]; exact hk
        · rw [if_neg hd]; exact hk
      rw [hq, lookupIdx_cons_pos h1, lookupIdx_cons_pos hk]
      by_cases hd : d < p.2 <;> simp [hd]
    · have hk0 : (p.1 == k) = false := by simpa using hk
      have h1 : ((if d < p.2 then (p.1, p.2 - 1) else p).1 == k) = false := by
        by_cases hd : d < p.2
        · rw [if_pos hd]; exact hk0
        · rw [if_neg hd]; exact hk0
      rw [hq, lookupIdx_cons_neg h1, lookupIdx_cons_neg hk0]
      exact ih

theorem splice_replace {α : Type} (l : List α) (i : Nat) (x : α) (h : i < l.length) :
    splice l i 1 [x] = l.set i x := by
  unfold splice
  rw [Nat.min_eq_left (Nat.le_of_lt h)]
  rw [List.set_eq_take_cons_drop x h]
  simp

theorem splice_insert {α : Type} (l : List α) (s : Nat) (items : List α)
    (h : s ≤ l.length) : splice l s 0 items = l.take s ++ items ++ l.drop s := by
  simp [splice, Nat.min_eq_left h]

theorem applyEdit_replace (st : PatchState) (c : ConfigLine) (li : Nat) (v : Line)
    (hk : lookupIdx st.lineIndices c.key = some li) (hv : c.value = some v) :
    applyEdit st c = { st with lines := splice st.lines li 1 [c.key ++ '=' :: v] } := by
  unfold applyEdit
  rw [hk, hv]

theorem applyEdit_delete (st : PatchState) (c : ConfigLine) (li : Nat)
    (hk : lookupIdx st.lineIndices c.key = some li) (hv : c.value = none) :
    applyEdit st c =
      { st with
          lines := splice st.lines li 1 [],
          lineIndices := decAbove st.lineIndices li,
          sectionIndices := decAbove st.sectionIndices li } := by
  unfold applyEdit
  rw [hk, hv]

theorem applyEdit_insert (st : PatchState) (c : ConfigLine) (si : Nat) (v : Line)
    (hk : lookupIdx st.lineIndices c.key = none) (hv : c.value = some v)
    (hs : lookupIdx st.sectionIndices (c.sectionName.getD (s2l "null")) = some si) :
    applyEdit st c =
      { st with
          lines := splice st.lines (si + 1) 0 [c.key ++ '=' :: v],
          lineIndices := incAbove st.lineIndices si,
          sectionIndices := incAbove st.sectionIndices si } := by
  unfold applyEdit
  rw [hk, hv, hs]

theorem applyEdit_append (st : PatchState) (c : ConfigLine) (v : Line)
    (hk : lookupIdx st.lineIndices c.key = none) (hv : c.value = some v)
    (hs : lookupIdx st.sectionIndices (c.sectionName.getD (s2l "null")) = none) :
    applyEdit st c = { st with addedContent := some (c.key ++ '=' :: (v ++ ['\n'])) } := by
  unfold applyEdit
  rw [hk, hv, hs]

theorem runEdits_one (content : List Char) (e : ConfigLine) :
    runEdits content [e] = applyEdit (initState content) e := rfl

theorem runEdits_two (content : List Char) (e1 e2 : ConfigLine) :
    runEdits content [e1, e2] = applyEdit (applyEdit (initState content) e1) e2 := rfl

theorem initState_lines (content : List Char) :
    (initState content).lines = splitNL content := rfl

theorem initState_lineIndices (content : List Char) :
    (initState content).lineIndices = (buildIndices (splitNL content)).1 := rfl

theorem initState_sectionIndices (content : List Char) :
    (initState content).sectionIndices = (buildIndices (splitNL content)).2 := rfl

theorem initState_addedContent (content : List Char) :
    (initState content).addedContent = none := rfl

theorem updateConfigContent_eq (content : List Char) (edits : List ConfigLine) :
    updateConfigContent content edits =
      joinNL (runEdits content edits).lines ++
        (runEdits content edits).addedContent.getD [] := rfl

/-! ### Claim theorems -/

/-- C7: patching with an empty edit batch writes back the original
content unchanged — the split into lines and the rejoin round-trip
byte-for-byte, and no content is appended. -/
theorem empty_batch_round_trip (content : List Char) :
    updateConfigContent content [] = content := by
  rw [updateConfigContent_eq]
  show joinNL (splitNL content) ++ [] = content
  rw [List.append_nil, joinNL_splitNL]

/-- C9: on the single-line file `foo=1` (terminated, as text files are,
by a line break), the edit `{key: baz, value: 3, section: null}` produces
`foo=1` followed by the new trailing line `baz=3`. -/
theorem append_scenario_foo_baz :
    updateConfigContent (s2l "foo=1\n") [⟨s2l "baz", some (s2l "3"), none⟩] =
      s2l "foo=1\nbaz=3\n" := by decide

/-- C6: a single REPLACE edit (key recorded, value non-null) turns the
buffer into `set li (key=value)`: the line count is unchanged, every line
other than the one at the key's recorded index is untouched, and only
that line is rewritten. -/
theorem replace_frame (content : List Char) (c : ConfigLine) (li : Nat) (v : Line)
    (hv : c.value = some v)
    (hk : lookupIdx (buildIndices (splitNL content)).1 c.key = some li) :
    (runEdits content [c]).lines = (splitNL content).set li (c.key ++ '=' :: v) ∧
    (runEdits content [c]).lines.length = (splitNL content).length ∧
    ∀ j, j ≠ li → (runEdits content [c]).lines[j]? = (splitNL content)[j]? := by
  have hlt : li < (splitNL content).length := keyIdx_lt hk
  have h2 : runEdits content [c] =
      { initState content with
          lines := splice (splitNL content) li 1 [c.key ++ '=' :: v] } := by
    rw [runEdits_one]
    exact applyEdit_replace (initState content) c li v hk hv
  have hset : (runEdits content [c]).lines = (splitNL content).set li (c.key ++ '=' :: v) := by
    rw [h2]
    exact splice_replace (splitNL content) li (c.key ++ '=' :: v) hlt
  refine ⟨hset, ?_, ?_⟩
  · rw [hset, List.length_set]
  · intro j hj
    rw [hset, List.getElem?_set_ne (fun h => hj h.symm)]

/-- C10: a REPLACE rewrites the line at the key's recorded index as
exactly `key=value` — whatever the original line looked like (whitespace
around `=`, original key spelling, trailing text such as an inline
comment), none of it survives. -/
theorem replace_discards_formatting (content : List Char) (c : ConfigLine) (li : Nat)
    (v : Line) (hv : c.value = some v)
    (hk : lookupIdx (buildIndices (splitNL content)).1 c.key = some li) :
    (runEdits content [c]).lines[li]? = some (c.key ++ '=' :: v) := by
  have hlt : li < (splitNL content).length := keyIdx_lt hk
  have h2 : runEdits content [c] =
      { initState content with
          lines := splice (splitNL content) li 1 [c.key ++ '=' :: v] } := by
    rw [runEdits_one]
    exact applyEdit_replace (initState content) c li v hk hv
  rw [h2]
  show (splice (splitNL content) li 1 [c.key ++ '=' :: v])[li]? = some (c.key ++ '=' :: v)
  rw [splice_replace (splitNL content) li (c.key ++ '=' :: v) hlt]
  rw [List.getElem?_set_self (by simpa using hlt)]

/-- C5: an edit whose key is unrecorded, whose value is non-null, and
whose section name is recorded at header position `si` inserts the new
`key=value` line at position `si + 1` — immediately after the header,
before every existing line of the section — and every key/section entry
recorded after the header is incremented by 1. -/
theorem insert_after_section (content : List Char) (c : ConfigLine) (s : Line)
    (si : Nat) (v : Line)
    (hsec : c.sectionName = some s) (hv : c.value = some v)
    (hk : lookupIdx (buildIndices (splitNL content)).1 c.key = none)
    (hs : lookupIdx (buildIndices (splitNL content)).2 s = some si) :
    runEdits content [c] =
      ⟨(splitNL content).take (si + 1) ++ [c.key ++ '=' :: v] ++
         (splitNL content).drop (si + 1),
       incAbove (buildIndices (splitNL content)).1 si,
       incAbove (buildIndices (splitNL content)).2 si,
       none⟩ := by
  have hlt : si < (splitNL content).length := sectionIdx_lt hs
  have hs2 : lookupIdx (initState content).sectionIndices
      (c.sectionName.getD (s2l "null")) = some si := by
    rw [hsec]
    exact hs
  rw [runEdits_one, applyEdit_insert (initState content) c si v hk hv hs2]
  show PatchState.mk (splice (splitNL content) (si + 1) 0 [c.key ++ '=' :: v])
      (incAbove (buildIndices (splitNL content)).1 si)
      (incAbove (buildIndices (splitNL content)).2 si) none = _
  rw [splice_insert (splitNL content) (si + 1) [c.key ++ '=' :: v]
    (Nat.succ_le_of_lt hlt)]

/-- C8 counterexample: with `section = null` the source evaluates
`sectionIndices[configLine.section!]`, and JavaScript coerces the `null`
property key to the string `"null"`; on a file containing a `[null]`
section header, an absent-key edit with `section = null` is inserted
after that header instead of being appended at the end. -/
theorem null_section_counterexample :
    updateConfigContent (s2l "[null]\nfoo=1\n") [⟨s2l "bar", some (s2l "2"), none⟩] =
      s2l "[null]\nbar=2\nfoo=1\n" ∧
    updateConfigContent (s2l "[null]\nfoo=1\n") [⟨s2l "bar", some (s2l "2"), none⟩] ≠
      s2l "[null]\nfoo=1\n" ++ s2l "bar=2\n" := by decide

/-- C8 amended: an edit whose key is unrecorded and whose value is
non-null falls back to append exactly when looking up its section
property key — the section name, or the string "null" when the section is
null — misses the section index; nothing fails, and the output is the
original content with `key=value` and a line break appended, exactly the
no-section behavior. -/
theorem unresolved_section_appends (content : List Char) (c : ConfigLine) (v : Line)
    (hv : c.value = some v)
    (hk : lookupIdx (buildIndices (splitNL content)).1 c.key = none)
    (hs : lookupIdx (buildIndices (splitNL content)).2
      (c.sectionName.getD (s2l "null")) = none) :
    updateConfigContent content [c] = content ++ c.key ++ '=' :: (v ++ ['\n']) := by
  rw [updateConfigContent_eq, runEdits_one, applyEdit_append _ _ _ hk hv hs]
  show joinNL (splitNL content) ++ (c.key ++ '=' :: (v ++ ['\n'])) = _
  rw [joinNL_splitNL, List.append_assoc]

/-- C1 counterexample: two APPEND-resolving edits in one batch (`a=1`
then `b=2`, neither key present): the single `addedContent` slot is
overwritten, so the output carries only the last line `b=2`, and `a=1`
appears nowhere in it. -/
theorem append_overwrite_counterexample :
    updateConfigContent (s2l "foo=1\n")
        [⟨s2l "a", some (s2l "1"), none⟩, ⟨s2l "b", some (s2l "2"), none⟩] =
      s2l "foo=1\nb=2\n" ∧
    ¬ (s2l "a=1" <:+: updateConfigContent (s2l "foo=1\n")
        [⟨s2l "a", some (s2l "1"), none⟩, ⟨s2l "b", some (s2l "2"), none⟩]) := by decide

/-- C1 amended: the pending-append accumulator is a single slot, not a
list: when two edits of one batch both resolve to APPEND, the second
overwrites the first, and the Writer emits only the LAST appended edit's
`key=value` line after the joined content. -/
theorem append_slot_overwrite (content : List Char) (c1 c2 : ConfigLine) (v1 v2 : Line)
    (hv1 : c1.value = some v1) (hv2 : c2.value = some v2)
    (hk1 : lookupIdx (buildIndices (splitNL content)).1 c1.key = none)
    (hk2 : lookupIdx (buildIndices (splitNL content)).1 c2.key = none)
    (hs1 : lookupIdx (buildIndices (splitNL content)).2
      (c1.sectionName.getD (s2l "null")) = none)
    (hs2 : lookupIdx (buildIndices (splitNL content)).2
      (c2.sectionName.getD (s2l "null")) = none) :
    updateConfigContent content [c1, c2] = content ++ c2.key ++ '=' :: (v2 ++ ['\n']) := by
  rw [updateConfigContent_eq, runEdits_two, applyEdit_append _ _ _ hk1 hv1 hs1,
    applyEdit_append _ _ _ hk2 hv2 hs2]
  show joinNL (splitNL content) ++ (c2.key ++ '=' :: (v2 ++ ['\n'])) = _
  rw [joinNL_splitNL, List.append_assoc]

/-- C2 counterexample: deleting key `a` from `a=1\nb=2\n` leaves the
entry `a ↦ 0` in the key index (the source never deletes it), and a later
edit of the same batch for `a` resolves to REPLACE at the stale position
0 — overwriting the line that shifted there: the batch
[delete `a`, set `a=9`] outputs `a=9` and loses `b=2` entirely. -/
theorem delete_stale_index_counterexample :
    lookupIdx (runEdits (s2l "a=1\nb=2\n") [⟨s2l "a", none, none⟩]).lineIndices
      (s2l "a") = some 0 ∧
    updateConfigContent (s2l "a=1\nb=2\n")
      [⟨s2l "a", none, none⟩, ⟨s2l "a", some (s2l "9"), none⟩] = s2l "a=9\n" := by decide

/-- C2 amended: after a DELETE of an existing key recorded at `d`, every
remaining key/section entry with recorded index greater than `d` is
decremented by 1, but the deleted key's own entry is NOT removed from the
key index: it survives at position `d`, so a later edit of the same batch
for that key does find the (now stale) position. -/
theorem delete_keeps_key_entry (st : PatchState) (c : ConfigLine) (d : Nat)
    (hv : c.value = none) (hk : lookupIdx st.lineIndices c.key = some d) :
    (applyEdit st c).lines = splice st.lines d 1 [] ∧
    (applyEdit st c).lineIndices = decAbove st.lineIndices d ∧
    (applyEdit st c).sectionIndices = decAbove st.sectionIndices d ∧
    lookupIdx (applyEdit st c).lineIndices c.key = some d := by
  rw [applyEdit_delete st c d hk hv]
  refine ⟨rfl, rfl, rfl, ?_⟩
  show lookupIdx (decAbove st.lineIndices d) c.key = some d
  rw [lookupIdx_decAbove, hk]
  simp

/-- C3 counterexample: the source tests `line.startsWith('#')`, not the
first non-whitespace character: the line ` #a=1` (leading space, then
`#`) has `#` as its first non-whitespace character, yet it IS scanned and
recorded in the key index under the key `#a`. -/
theorem comment_after_whitespace_counterexample :
    ((s2l " #a=1").dropWhile isWs).head? = some '#' ∧
    lookupIdx (buildIndices [s2l " #a=1"]).1 (s2l "#a") = some 0 := by decide

/-- C3 amended: only a line whose FIRST character is `#` is skipped by
the initial scan: such a line contributes nothing to either index, even
if it contains `=` or matches the section-header shape; a comment
preceded by whitespace is scanned like any other line. -/
theorem hash_first_char_skipped (l : Line) (rest : List Line) (i : Nat) (li si : Idx)
    (h : l.head? = some '#') :
    buildIndicesAux (l :: rest) i li si = buildIndicesAux rest (i + 1) li si := by
  simp only [buildIndicesAux]
  rw [if_pos h]

/-- C4 counterexample: the scan applies the key regex to every
non-comment line, section headers included (there is no `else` between
the two matches in the source): the header line `[a=b]` is recorded in
the section index under `a=b` AND in the key index under `[a`. -/
theorem header_also_keyed_counterexample :
    matchSection (s2l "[a=b]") = some (s2l "a=b") ∧
    lookupIdx (buildIndices [s2l "[a=b]"]).2 (s2l "a=b") = some 0 ∧
    lookupIdx (buildIndices [s2l "[a=b]"]).1 (s2l "[a") = some 0 := by decide

/-- C4 amended: a non-comment line matching the section-header pattern is
recorded in the section index and is additionally run through key-value
classification; when the line contains no `=` at all the key match fails,
so such a header is recorded only in the section index (headers whose
bracketed name contains `=` land in both indexes). -/
theorem header_without_eq_only_sectioned (l name : Line) (rest : List Line) (i : Nat)
    (li si : Idx) (hc : ¬ (l.head? = some '#')) (hs : matchSection l = some name)
    (hne : ∀ c ∈ l, c ≠ '=') :
    matchKey l = none ∧
    buildIndicesAux (l :: rest) i li si =
      buildIndicesAux rest (i + 1) li (setIdx si name i) := by
  have hkey : matchKey l = none := by
    have hany : ¬ ((l.dropWhile (fun c => c == '=')).any (fun c => c == '=') = true) := by
      intro h
      obtain ⟨c, hcmem, hceq⟩ := List.any_eq_true.mp h
      have hcl : c ∈ l := (List.dropWhile_sublist _).subset hcmem
      exact hne c hcl (by simpa using hceq)
    simp only [matchKey]
    rw [if_neg hany]
  refine ⟨hkey, ?_⟩
  simp only [buildIndicesAux]
  rw [if_neg hc, hs, hkey]

/-! ### Witnesses -/

/-- Witness for `replace_frame` at the file `foo=1\nbar=2\n` and the edit
`foo=9`, recorded at position 0. -/
theorem replace_frame_witness :
    (⟨s2l "foo", some (s2l "9"), none⟩ : ConfigLine).value = some (s2l "9") ∧
    lookupIdx (buildIndices (splitNL (s2l "foo=1\nbar=2\n"))).1 (s2l "foo") = some 0 ∧
    (runEdits (s2l "foo=1\nbar=2\n") [⟨s2l "foo", some (s2l "9"), none⟩]).lines =
      (splitNL (s2l "foo=1\nbar=2\n")).set 0 (s2l "foo" ++ '=' :: s2l "9") :=
  ⟨rfl, by decide,
    (replace_frame (s2l "foo=1\nbar=2\n") ⟨s2l "foo", some (s2l "9"), none⟩ 0 (s2l "9")
      rfl (by decide)).1⟩

/-- Witness for `replace_discards_formatting` at the single-line file
`  foo = 1 # cmt` and the edit `foo=2`. -/
theorem replace_discards_formatting_witness :
    (⟨s2l "foo", some (s2l "2"), none⟩ : ConfigLine).value = some (s2l "2") ∧
    lookupIdx (buildIndices (splitNL (s2l "  foo = 1 # cmt\n"))).1 (s2l "foo") = some 0 ∧
    (runEdits (s2l "  foo = 1 # cmt\n")
        [⟨s2l "foo", some (s2l "2"), none⟩]).lines[0]? =
      some (s2l "foo" ++ '=' :: s2l "2") :=
  ⟨rfl, by decide,
    replace_discards_formatting (s2l "  foo = 1 # cmt\n")
      ⟨s2l "foo", some (s2l "2"), none⟩ 0 (s2l "2") rfl (by decide)⟩

/-- Witness for `insert_after_section` at the file `[en]\nfoo=1\n` and the
edit `bar=2` scoped to section `en` (header at position 0). -/
theorem insert_after_section_witness :
    (⟨s2l "bar", some (s2l "2"), some (s2l "en")⟩ : ConfigLine).sectionName =
      some (s2l "en") ∧
    (⟨s2l "bar", some (s2l "2"), some (s2l "en")⟩ : ConfigLine).value = some (s2l "2") ∧
    lookupIdx (buildIndices (splitNL (s2l "[en]\nfoo=1\n"))).1 (s2l "bar") = none ∧
    lookupIdx (buildIndices (splitNL (s2l "[en]\nfoo=1\n"))).2 (s2l "en") = some 0 ∧
    runEdits (s2l "[en]\nfoo=1\n") [⟨s2l "bar", some (s2l "2"), some (s2l "en")⟩] =
      ⟨(splitNL (s2l "[en]\nfoo=1\n")).take 1 ++ [s2l "bar" ++ '=' :: s2l "2"] ++
         (splitNL (s2l "[en]\nfoo=1\n")).drop 1,
       incAbove (buildIndices (splitNL (s2l "[en]\nfoo=1\n"))).1 0,
       incAbove (buildIndices (splitNL (s2l "[en]\nfoo=1\n"))).2 0,
       none⟩ :=
  ⟨rfl, rfl, by decide, by decide,
    insert_after_section (s2l "[en]\nfoo=1\n")
      ⟨s2l "bar", some (s2l "2"), some (s2l "en")⟩ (s2l "en") 0 (s2l "2")
      rfl rfl (by decide) (by decide)⟩

/-- Witness for `unresolved_section_appends` at the file `foo=1\n` and
the sectionless edit `baz=3`. -/
theorem unresolved_section_appends_witness :
    (⟨s2l "baz", some (s2l "3"), none⟩ : ConfigLine).value = some (s2l "3") ∧
    lookupIdx (buildIndices (splitNL (s2l "foo=1\n"))).1 (s2l "baz") = none ∧
    lookupIdx (buildIndices (splitNL (s2l "foo=1\n"))).2 (s2l "null") = none ∧
    updateConfigContent (s2l "foo=1\n") [⟨s2l "baz", some (s2l "3"), none⟩] =
      s2l "foo=1\n" ++ s2l "baz" ++ '=' :: (s2l "3" ++ ['\n']) :=
  ⟨rfl, by decide, by decide,
    unresolved_section_appends (s2l "foo=1\n") ⟨s2l "baz", some (s2l "3"), none⟩
      (s2l "3") rfl (by decide) (by decide)⟩

/-- Witness for `append_slot_overwrite` at the file `foo=1\n` and the two
sectionless edits `a=1` and `b=2`. -/
theorem append_slot_overwrite_witness :
    (⟨s2l "a", some (s2l "1"), none⟩ : ConfigLine).value = some (s2l "1") ∧
    (⟨s2l "b", some (s2l "2"), none⟩ : ConfigLine).value = some (s2l "2") ∧
    lookupIdx (buildIndices (splitNL (s2l "foo=1\n"))).1 (s2l "a") = none ∧
    lookupIdx (buildIndices (splitNL (s2l "foo=1\n"))).1 (s2l "b") = none ∧
    lookupIdx (buildIndices (splitNL (s2l "foo=1\n"))).2 (s2l "null") = none ∧
    lookupIdx (buildIndices (splitNL (s2l "foo=1\n"))).2 (s2l "null") = none ∧
    updateConfigContent (s2l "foo=1\n")
        [⟨s2l "a", some (s2l "1"), none⟩, ⟨s2l "b", some (s2l "2"), none⟩] =
      s2l "foo=1\n" ++ s2l "b" ++ '=' :: (s2l "2" ++ ['\n']) :=
  ⟨rfl, rfl, by decide, by decide, by decide, by decide,
    append_slot_overwrite (s2l "foo=1\n") ⟨s2l "a", some (s2l "1"), none⟩
      ⟨s2l "b", some (s2l "2"), none⟩ (s2l "1") (s2l "2") rfl rfl
      (by decide) (by decide) (by decide) (by decide)⟩

/-- Witness for `delete_keeps_key_entry` at the loaded file `a=1\nb=2\n`
and the delete edit for key `a`, recorded at position 0. -/
theorem delete_keeps_key_entry_witness :
    (⟨s2l "a", none, none⟩ : ConfigLine).value = none ∧
    lookupIdx (initState (s2l "a=1\nb=2\n")).lineIndices (s2l "a") = some 0 ∧
    ((applyEdit (initState (s2l "a=1\nb=2\n")) ⟨s2l "a", none, none⟩).lines =
        splice (initState (s2l "a=1\nb=2\n")).lines 0 1 [] ∧
      (applyEdit (initState (s2l "a=1\nb=2\n")) ⟨s2l "a", none, none⟩).lineIndices =
        decAbove (initState (s2l "a=1\nb=2\n")).lineIndices 0 ∧
      (applyEdit (initState (s2l "a=1\nb=2\n")) ⟨s2l "a", none, none⟩).sectionIndices =
        decAbove (initState (s2l "a=1\nb=2\n")).sectionIndices 0 ∧
      lookupIdx (applyEdit (initState (s2l "a=1\nb=2\n"))
        ⟨s2l "a", none, none⟩).lineIndices (s2l "a") = some 0) :=
  ⟨rfl, by decide,
    delete_keeps_key_entry (initState (s2l "a=1\nb=2\n")) ⟨s2l "a", none, none⟩ 0
      rfl (by decide)⟩

/-- Witness for `hash_first_char_skipped` at the line `#x=1`. -/
theorem hash_first_char_skipped_witness :
    (s2l "#x=1").head? = some '#' ∧
    buildIndicesAux [s2l "#x=1"] 0 [] [] = buildIndicesAux [] 1 [] [] :=
  ⟨rfl, hash_first_char_skipped (s2l "#x=1") [] 0 [] [] rfl⟩

/-- Witness for `header_without_eq_only_sectioned` at the header line
`[en]`. -/
theorem header_without_eq_only_sectioned_witness :
    matchSection (s2l "[en]") = some (s2l "en") ∧
    (matchKey (s2l "[en]") = none ∧
      buildIndicesAux [s2l "[en]"] 0 [] [] =
        buildIndicesAux [] 1 [] (setIdx [] (s2l "en") 0)) :=
  ⟨by decide,
    header_without_eq_only_sectioned (s2l "[en]") (s2l "en") [] 0 [] []
      (by decide) (by decide) (by decide)⟩

end ZkInit
